import Mathlib

/-!
Shallow embedding of `src/json_explorer/explorer.py` (the JSON terminal
explorer).  The navigation core — `DataValue.stringify_value`, `DataManager`
with `get_data`, `get_keys`, `get_path`, `move_up`, `move_down`,
`increment_pointer`, `decrement_pointer`, `_resolve_path` — is translated
function by function.  Python exceptions that the source can raise
(`SystemExit` from `sys.exit(1)`, `IndexError`, `ZeroDivisionError` from
`% 0`, and `TypeError` from hashing an unhashable object) are modelled with
`Except PyErr`.
-/

/-- JSON values as handed to `DataManager` by `json.loads`: objects keep their
key/value pairs in insertion order, arrays are ordered, and numbers are
modelled as integers (this development only exercises integral numbers). -/
inductive JValue where
  | obj (entries : List (String × JValue))
  | arr (elems : List JValue)
  | str (s : String)
  | num (n : Int)
  | bool (b : Bool)
  | null

/-- Errors the navigation core can raise: `systemExit` models `sys.exit(1)` in
`_resolve_path`, `indexError` models Python `IndexError` on list indexing,
`zeroDivisionError` models `% 0`, and `typeError` models
`TypeError: unhashable type` raised when a `DataValue` is used as a `dict`
key (see `rows_of`). -/
inductive PyErr where
  | systemExit
  | indexError
  | zeroDivisionError
  | typeError
deriving DecidableEq

/-- A Python value appearing as the `content` of a `DataValue`: either a JSON
value (object keys are plain `str`s and list indices plain `int`s, so both are
`JValue`s) or the sentinel `DataConstants.LEAF_NODE`.  Python `Enum` members
compare equal only to themselves — in particular never to the number `-1` —
so the sentinel is a separate constructor. -/
inductive PyVal where
  | json (v : JValue)
  | leafMark

/-- Embedding of the `DataValue` dataclass.  The `content_type` field is never
read anywhere in the program and is omitted. -/
structure DataValue where
  content : PyVal
  as_string : String

/-- Embedding of the static method `DataValue.stringify_value`.  The final
`str(value)` branch covers numbers (`str(3) = "3"`), booleans
(`str(True) = "True"`), `None` (`str(None) = "None"`) and the
`DataConstants.LEAF_NODE` enum member. -/
def DataValue.stringify_value : PyVal → String
  | .json (.str s) => "\"" ++ s ++ "\""
  | .json (.obj es) =>
      if es.length ≠ 1 then "Dictionary, " ++ toString es.length ++ " keys"
      else "Dictionary, 1 key"
  | .json (.arr xs) =>
      if xs.length ≠ 1 then "List, " ++ toString xs.length ++ " entries"
      else "List, 1 entry"
  | .json (.num n) => toString n
  | .json (.bool b) => if b then "True" else "False"
  | .json .null => "None"
  | .leafMark => "DataConstants.LEAF_NODE"

/-- Embedding of `DataValue.__init__`: stores the content and its stringified
form. -/
def DataValue.make (c : PyVal) : DataValue :=
  ⟨c, DataValue.stringify_value c⟩

/-- Embedding of the `DataManager` state: the immutable document, the path of
`(selector, remembered pointer)` pairs, and the pointer. -/
structure DataManager where
  data : JValue
  path : List (PyVal × Int)
  pointer : Int

/-- Python list indexing `xs[i]`: a negative index is end-relative
(`xs[-1]` is the last element); out of range raises `IndexError`. -/
def pyListGet {α : Type} (xs : List α) (i : Int) : Except PyErr α :=
  let j : Int := if i < 0 then i + xs.length else i
  if 0 ≤ j then
    match xs.get? j.toNat with
    | some a => .ok a
    | none => .error .indexError
  else .error .indexError

/-- One iteration of the `DataManager._resolve_path` loop, applied to the
current node and one raw selector.  At a list node the source checks
`isinstance(entry, int) and entry < len(cdata)` and then indexes — Python
`bool` is a subclass of `int`, so a boolean selector would also index (with
`True = 1`, `False = 0`); anything else calls `sys.exit(1)`.  At a dict node it
checks `entry in cdata` and looks the key up; at a scalar it exits. -/
def resolve_step (cdata : JValue) (entry : PyVal) : Except PyErr JValue :=
  match cdata with
  | .arr xs =>
    match entry with
    | .json (.num i) =>
      if i < (xs.length : Int) then pyListGet xs i else .error .systemExit
    | .json (.bool b) =>
      if (if b then (1 : Int) else 0) < (xs.length : Int) then
        pyListGet xs (if b then (1 : Int) else 0)
      else .error .systemExit
    | _ => .error .systemExit
  | .obj es =>
    match entry with
    | .json (.str s) =>
      match es.find? (fun kv => kv.1 == s) with
      | some kv => .ok kv.2
      | none => .error .systemExit
    | _ => .error .systemExit
  | _ => .error .systemExit

/-- The `for entry in [p[0] for p in path]` loop of `DataManager._resolve_path`:
fold `resolve_step` over the selectors, propagating the first failure. -/
def resolve_loop : JValue → List PyVal → Except PyErr JValue
  | cdata, [] => .ok cdata
  | cdata, entry :: rest =>
    match resolve_step cdata entry with
    | .ok v => resolve_loop v rest
    | .error e => .error e

/-- Embedding of the static method `DataManager._resolve_path`: the source
iterates over `[p[0] for p in path]`. -/
def _resolve_path (data : JValue) (path : List (PyVal × Int)) : Except PyErr JValue :=
  resolve_loop data (path.map Prod.fst)

/-- Rows computed by `DataManager.get_data` from the resolved node.  For a
dict node the source evaluates
`{DataValue(key): DataValue(value) for key, value in cdata.items()}`:
`DataValue` is declared `@dataclass` with the default `eq=True` and neither
`frozen=True` nor `unsafe_hash=True`, so Python sets `DataValue.__hash__`
to `None` and hashing the first key raises `TypeError: unhashable type`.
A non-empty dict therefore raises before any sorting happens, while the empty
dict builds `{}` without hashing anything and the double `sorted` over its
empty item list returns `[]`.  A list node yields its `enumerate`d entries in
index order, and any other node yields the single synthetic leaf row. -/
def rows_of : JValue → Except PyErr (List (DataValue × DataValue))
  | .obj [] => .ok []
  | .obj _ => .error .typeError
  | .arr xs =>
      .ok (xs.enum.map fun p =>
        (DataValue.make (.json (.num (p.1 : Int))), DataValue.make (.json p.2)))
  | v => .ok [(DataValue.make .leafMark, DataValue.make (.json v))]

/-- Embedding of `DataManager.get_data`: resolve the path, then build the row
list (`sys.exit` from `_resolve_path` propagates). -/
def DataManager.get_data (dm : DataManager) : Except PyErr (List (DataValue × DataValue)) :=
  match _resolve_path dm.data dm.path with
  | .ok cdata => rows_of cdata
  | .error e => .error e

/-- Embedding of `DataManager.get_keys`: first components of the rows. -/
def DataManager.get_keys (dm : DataManager) : Except PyErr (List DataValue) :=
  match dm.get_data with
  | .ok items => .ok (items.map Prod.fst)
  | .error e => .error e

/-- Embedding of `DataManager.get_path`: each raw selector wrapped in a
`DataValue`. -/
def DataManager.get_path (dm : DataManager) : List DataValue :=
  dm.path.map fun e => DataValue.make e.1

/-- Embedding of `DataManager.move_up`: if the path is non-empty, restore the
remembered pointer of the last entry and drop that entry (the inner
`if len(self.path) > 0 else 0` of the source is redundant: the outer guard
already holds). -/
def DataManager.move_up (dm : DataManager) : DataManager :=
  match dm.path.getLast? with
  | some last => { dm with pointer := last.2, path := dm.path.dropLast }
  | none => dm

/-- The Python check `key.content == DataConstants.LEAF_NODE`: an `Enum`
member compares equal only to itself. -/
def PyVal.isLeafMark : PyVal → Bool
  | .leafMark => true
  | _ => false

/-- Embedding of `DataManager.move_down`: `list(self.get_data())[self.pointer]`
(which can raise `IndexError`), then a no-op on the leaf sentinel, a push of
`(key.content, pointer)` with pointer reset when the value is a dict or list,
and a no-op otherwise. -/
def DataManager.move_down (dm : DataManager) : Except PyErr DataManager :=
  match dm.get_data with
  | .error e => .error e
  | .ok rows =>
    match pyListGet rows dm.pointer with
    | .error e => .error e
    | .ok kv =>
      if kv.1.content.isLeafMark then .ok dm
      else
        match kv.2.content with
        | .json (.obj _) =>
            .ok { dm with path := dm.path ++ [(kv.1.content, dm.pointer)], pointer := 0 }
        | .json (.arr _) =>
            .ok { dm with path := dm.path ++ [(kv.1.content, dm.pointer)], pointer := 0 }
        | _ => .ok dm

/-- Embedding of `DataManager.increment_pointer`:
`(pointer + 1) % len(self.get_keys())`, where Python `%` on a positive modulus
is Euclidean (always non-negative) and `% 0` raises `ZeroDivisionError`. -/
def DataManager.increment_pointer (dm : DataManager) : Except PyErr DataManager :=
  match dm.get_keys with
  | .error e => .error e
  | .ok keys =>
    if keys.length = 0 then .error .zeroDivisionError
    else .ok { dm with pointer := (dm.pointer + 1) % (keys.length : Int) }

/-- Embedding of `DataManager.decrement_pointer`:
`(pointer - 1) % len(self.get_keys())`. -/
def DataManager.decrement_pointer (dm : DataManager) : Except PyErr DataManager :=
  match dm.get_keys with
  | .error e => .error e
  | .ok keys =>
    if keys.length = 0 then .error .zeroDivisionError
    else .ok { dm with pointer := (dm.pointer - 1) % (keys.length : Int) }

/-- Python `'/'.join(parts)`. -/
def join_with_slash : List String → String
  | [] => ""
  | [a] => a
  | a :: b :: rest => a ++ "/" ++ join_with_slash (b :: rest)

/-- The breadcrumb computed in `DataRenderer.update_screen`:
`'/'.join(['root'] + [entry.as_string for entry in self.dtm.get_path()])`. -/
def DataManager.path_str (dm : DataManager) : String :=
  join_with_slash ("root" :: dm.get_path.map DataValue.as_string)

/-- Iterated application of a navigation operation in sequence, stopping at the
first raised exception. -/
def apply_n (f : DataManager → Except PyErr DataManager) :
    Nat → DataManager → Except PyErr DataManager
  | 0, dm => .ok dm
  | n + 1, dm =>
    match f dm with
    | .ok dm2 => apply_n f n dm2
    | .error e => .error e

/-- Session states reachable from the initial state `(document, [], 0)` by the
four navigation operations; an operation that raises contributes no new
state (the process dies). -/
inductive Reachable (d : JValue) : DataManager → Prop where
  | init : Reachable d ⟨d, [], 0⟩
  | up {s : DataManager} : Reachable d s → Reachable d s.move_up
  | down {s s2 : DataManager} : Reachable d s → s.move_down = .ok s2 → Reachable d s2
  | inc {s s2 : DataManager} : Reachable d s → s.increment_pointer = .ok s2 → Reachable d s2
  | dec {s s2 : DataManager} : Reachable d s → s.decrement_pointer = .ok s2 → Reachable d s2

/-- Rows of the node addressed by `path` inside document `d` (what `get_data`
returns from any state with this document and path). -/
def rows_at (d : JValue) (path : List (PyVal × Int)) :
    Except PyErr (List (DataValue × DataValue)) :=
  match _resolve_path d path with
  | .ok cdata => rows_of cdata
  | .error e => .error e

/-- A pointer value consistent with the rows at `(d, path)`: zero on an empty
row list and strictly inside the row list otherwise (vacuous when the row
computation raises). -/
def GoodPtr (d : JValue) (path : List (PyVal × Int)) (p : Int) : Prop :=
  ∀ rows, rows_at d path = .ok rows →
    (rows.length = 0 → p = 0) ∧ (0 < rows.length → 0 ≤ p ∧ p < (rows.length : Int))

/-- Every remembered pointer stored along the path is consistent with the rows
of the level it was remembered at: whenever the path splits as
`q ++ e :: r`, the pointer remembered in `e` was a good pointer for the node
addressed by the prefix `q`. -/
def PathGood (d : JValue) (path : List (PyVal × Int)) : Prop :=
  ∀ (q : List (PyVal × Int)) (e : PyVal × Int) (r : List (PyVal × Int)),
    path = q ++ e :: r → GoodPtr d q e.2

/-- Combined session invariant: the document never changes, the path always
resolves, the pointer is in bounds for the current rows, and all remembered
pointers are in bounds for their levels. -/
def SessionInv (d : JValue) (s : DataManager) : Prop :=
  s.data = d ∧ (∃ v, _resolve_path d s.path = .ok v) ∧
    GoodPtr d s.path s.pointer ∧ PathGood d s.path

lemma pyListGet_nil {α : Type} (i : Int) : pyListGet ([] : List α) i = .error .indexError := by
  unfold pyListGet
  split <;> simp

lemma pyListGet_eq_get {α : Type} (xs : List α) (i : Int) (h0 : 0 ≤ i)
    (h1 : i.toNat < xs.length) : pyListGet xs i = .ok (xs.get ⟨i.toNat, h1⟩) := by
  unfold pyListGet
  have hneg : ¬ i < 0 := by omega
  simp only [hneg, if_false, if_pos h0, List.get?_eq_get h1]

lemma pyListGet_mem {α : Type} {xs : List α} {i : Int} {a : α}
    (h : pyListGet xs i = .ok a) : a ∈ xs := by
  simp only [pyListGet] at h
  split at h <;> split at h <;>
    first
      | exact Except.noConfusion h
      | (split at h
         · rename_i a2 hsome
           cases h
           exact List.get?_mem hsome
         · exact Except.noConfusion h)

lemma resolve_loop_append (l1 : List PyVal) :
    ∀ (d : JValue) (l2 : List PyVal),
      resolve_loop d (l1 ++ l2) =
        match resolve_loop d l1 with
        | .ok v => resolve_loop v l2
        | .error e => .error e := by
  induction l1 with
  | nil => intro d l2; rfl
  | cons a l ih =>
    intro d l2
    simp only [List.cons_append, resolve_loop]
    cases h : resolve_step d a with
    | ok v => exact ih v l2
    | error e => rfl

lemma resolve_path_snoc (d : JValue) (path : List (PyVal × Int)) (x : PyVal × Int) :
    _resolve_path d (path ++ [x]) =
      match _resolve_path d path with
      | .ok v => resolve_step v x.1
      | .error e => .error e := by
  unfold _resolve_path
  rw [List.map_append, resolve_loop_append]
  cases resolve_loop d (path.map Prod.fst) with
  | ok v =>
    show resolve_loop v [x.1] = resolve_step v x.1
    simp only [resolve_loop]
    cases resolve_step v x.1 <;> rfl
  | error e => rfl

lemma get_data_eq_rows_at (s : DataManager) : s.get_data = rows_at s.data s.path := rfl

lemma rows_of_arr_len {xs : List JValue} {rows : List (DataValue × DataValue)}
    (hr : rows_of (.arr xs) = .ok rows) : rows.length = xs.length := by
  simp only [rows_of, Except.ok.injEq] at hr
  subst hr
  simp

lemma rows_of_arr_getElem {xs : List JValue} {rows : List (DataValue × DataValue)}
    (hr : rows_of (.arr xs) = .ok rows) (n : Nat) (hn : n < xs.length)
    (hn2 : n < rows.length) :
    rows[n] = (DataValue.make (.json (.num (n : Int))), DataValue.make (.json (xs[n]))) := by
  simp only [rows_of, Except.ok.injEq] at hr
  subst hr
  simp

lemma goodPtr_zero (d : JValue) (path : List (PyVal × Int)) : GoodPtr d path 0 := by
  intro rows _
  constructor
  · intro _; rfl
  · intro hlen
    exact ⟨le_refl 0, by exact_mod_cast hlen⟩

lemma pathGood_nil (d : JValue) : PathGood d [] := by
  intro q e r h
  exact absurd h.symm (List.append_ne_nil_of_right_ne_nil q (List.cons_ne_nil e r))

lemma pathGood_snoc {d : JValue} {path : List (PyVal × Int)} {k : PyVal} {p : Int}
    (hg : PathGood d path) (hp : GoodPtr d path p) : PathGood d (path ++ [(k, p)]) := by
  intro q e r h
  rcases List.eq_nil_or_concat r with hr | ⟨r2, x2, hr⟩
  · subst hr
    have h2 : path ++ [(k, p)] = q ++ [e] := h
    obtain ⟨hq, he⟩ := List.append_inj' h2 rfl
    have he2 : (k, p) = e := by
      have := List.cons.injEq (k, p) [] e [] ▸ he
      exact (List.cons.inj he).1
    subst hq
    rw [← he2]
    exact hp
  · subst hr
    have h2 : path ++ [(k, p)] = (q ++ e :: r2) ++ [x2] := by
      rw [h]; simp
    obtain ⟨hq, _⟩ := List.append_inj' h2 rfl
    exact hg q e r2 hq

lemma pathGood_of_snoc {d : JValue} {path : List (PyVal × Int)} {x : PyVal × Int}
    (hg : PathGood d (path ++ [x])) : PathGood d path := by
  intro q e r h
  refine hg q e (r ++ [x]) ?_
  rw [h]
  simp

lemma goodPtr_of_pathGood_snoc {d : JValue} {path : List (PyVal × Int)} {x : PyVal × Int}
    (hg : PathGood d (path ++ [x])) : GoodPtr d path x.2 :=
  hg path x [] rfl

lemma move_up_nil {s : DataManager} (h : s.path = []) : s.move_up = s := by
  unfold DataManager.move_up
  rw [h]
  rfl

lemma move_up_concat {s : DataManager} {q : List (PyVal × Int)} {e : PyVal × Int}
    (h : s.path = q ++ [e]) : s.move_up = { s with pointer := e.2, path := q } := by
  unfold DataManager.move_up
  rw [h, List.getLast?_concat, List.dropLast_concat]

lemma get_data_ok_inv {s : DataManager} {rows : List (DataValue × DataValue)}
    (hg : s.get_data = .ok rows) :
    ∃ c, _resolve_path s.data s.path = .ok c ∧ rows_of c = .ok rows := by
  unfold DataManager.get_data at hg
  split at hg
  · rename_i c hc
    exact ⟨c, hc, hg⟩
  · exact Except.noConfusion hg

lemma get_keys_ok_inv {s : DataManager} {keys : List DataValue}
    (hk : s.get_keys = .ok keys) :
    ∃ rows, s.get_data = .ok rows ∧ keys = rows.map Prod.fst := by
  unfold DataManager.get_keys at hk
  split at hk
  · rename_i rows hg
    exact ⟨rows, hg, (Except.ok.inj hk).symm⟩
  · exact Except.noConfusion hk

lemma rows_at_of_get_data {d : JValue} {s : DataManager} {rows : List (DataValue × DataValue)}
    (hdata : s.data = d) (hg : s.get_data = .ok rows) :
    rows_at d s.path = .ok rows := by
  rw [← hdata]
  exact hg

lemma inv_move_up {d : JValue} {s : DataManager} (ih : SessionInv d s) :
    SessionInv d s.move_up := by
  obtain ⟨hdata, hres, hptr, hpath⟩ := ih
  rcases List.eq_nil_or_concat s.path with hnil | ⟨q, e, hqe⟩
  · rw [move_up_nil hnil]
    exact ⟨hdata, hres, hptr, hpath⟩
  · rw [List.concat_eq_append] at hqe
    rw [move_up_concat hqe]
    rw [hqe] at hres hpath
    refine ⟨hdata, ?_, ?_, ?_⟩
    · obtain ⟨v, hv⟩ := hres
      rw [resolve_path_snoc] at hv
      cases hq : _resolve_path d q with
      | ok w => exact ⟨w, rfl⟩
      | error er =>
        rw [hq] at hv
        exact Except.noConfusion hv
    · exact goodPtr_of_pathGood_snoc hpath
    · exact pathGood_of_snoc hpath

lemma inv_inc {d : JValue} {s s2 : DataManager} (ih : SessionInv d s)
    (hok : s.increment_pointer = .ok s2) : SessionInv d s2 := by
  obtain ⟨hdata, hres, hptr, hpath⟩ := ih
  unfold DataManager.increment_pointer at hok
  split at hok
  · exact Except.noConfusion hok
  · rename_i keys hk
    split at hok
    · exact Except.noConfusion hok
    · rename_i hz
      have hs2 : s2 = { s with pointer := (s.pointer + 1) % (keys.length : Int) } :=
        (Except.ok.inj hok).symm
      subst hs2
      obtain ⟨rows, hg, hkeys⟩ := get_keys_ok_inv hk
      have hlen : keys.length = rows.length := by rw [hkeys]; simp
      refine ⟨hdata, hres, ?_, hpath⟩
      intro rows2 hrows2
      have hrows_eq : rows2 = rows := by
        have hra := rows_at_of_get_data hdata hg
        rw [hra] at hrows2
        exact (Except.ok.inj hrows2).symm
      subst hrows_eq
      constructor
      · intro h0
        exact absurd (by omega : keys.length = 0) hz
      · intro _
        have hne : (keys.length : Int) ≠ 0 := by exact_mod_cast hz
        refine ⟨Int.emod_nonneg _ hne, ?_⟩
        rw [← hlen]
        exact Int.emod_lt_of_pos _ (by exact_mod_cast Nat.pos_of_ne_zero hz)

lemma inv_dec {d : JValue} {s s2 : DataManager} (ih : SessionInv d s)
    (hok : s.decrement_pointer = .ok s2) : SessionInv d s2 := by
  obtain ⟨hdata, hres, hptr, hpath⟩ := ih
  unfold DataManager.decrement_pointer at hok
  split at hok
  · exact Except.noConfusion hok
  · rename_i keys hk
    split at hok
    · exact Except.noConfusion hok
    · rename_i hz
      have hs2 : s2 = { s with pointer := (s.pointer - 1) % (keys.length : Int) } :=
        (Except.ok.inj hok).symm
      subst hs2
      obtain ⟨rows, hg, hkeys⟩ := get_keys_ok_inv hk
      have hlen : keys.length = rows.length := by rw [hkeys]; simp
      refine ⟨hdata, hres, ?_, hpath⟩
      intro rows2 hrows2
      have hrows_eq : rows2 = rows := by
        have hra := rows_at_of_get_data hdata hg
        rw [hra] at hrows2
        exact (Except.ok.inj hrows2).symm
      subst hrows_eq
      constructor
      · intro h0
        exact absurd (by omega : keys.length = 0) hz
      · intro _
        have hne : (keys.length : Int) ≠ 0 := by exact_mod_cast hz
        refine ⟨Int.emod_nonneg _ hne, ?_⟩
        rw [← hlen]
        exact Int.emod_lt_of_pos _ (by exact_mod_cast Nat.pos_of_ne_zero hz)

lemma resolve_step_arr_num {xs : List JValue} {i : Int} (hge : 0 ≤ i)
    (hlt : i < (xs.length : Int)) (h : i.toNat < xs.length) :
    resolve_step (.arr xs) (.json (.num i)) = .ok (xs.get ⟨i.toNat, h⟩) := by
  simp only [resolve_step]
  rw [if_pos hlt]
  exact pyListGet_eq_get xs i hge h

lemma kv_of_singleton {α : Type} {a : α} {rows : List α} {i : Int} {kv : α}
    (hrows : rows = [a]) (hp : pyListGet rows i = .ok kv) : kv = a := by
  subst hrows
  have := pyListGet_mem hp
  simpa using this

lemma inv_push {d : JValue} {s : DataManager} {xs : List JValue}
    (hdata : s.data = d)
    (hc : _resolve_path d s.path = .ok (.arr xs))
    (hptr : GoodPtr d s.path s.pointer)
    (hpath : PathGood d s.path)
    (hge : 0 ≤ s.pointer) (hlt : s.pointer < (xs.length : Int)) :
    SessionInv d { s with path := s.path ++ [(.json (.num s.pointer), s.pointer)], pointer := 0 } := by
  have htn : s.pointer.toNat < xs.length := by omega
  refine ⟨hdata, ⟨xs.get ⟨s.pointer.toNat, htn⟩, ?_⟩, goodPtr_zero d _, pathGood_snoc hpath hptr⟩
  rw [resolve_path_snoc, hc]
  exact resolve_step_arr_num hge hlt htn

lemma inv_move_down {d : JValue} {s s2 : DataManager} (ih : SessionInv d s)
    (hok : s.move_down = .ok s2) : SessionInv d s2 := by
  obtain ⟨hdata, hres, hptr, hpath⟩ := ih
  unfold DataManager.move_down at hok
  split at hok
  · exact Except.noConfusion hok
  · rename_i rows hg
    split at hok
    · exact Except.noConfusion hok
    · rename_i kv hp
      by_cases hleaf : kv.1.content.isLeafMark
      · rw [if_pos hleaf] at hok
        have hs2 : s = s2 := Except.ok.inj hok
        subst hs2
        exact ⟨hdata, hres, hptr, hpath⟩
      · rw [if_neg hleaf] at hok
        obtain ⟨cdata, hc, hro⟩ := get_data_ok_inv hg
        rw [hdata] at hc
        cases cdata with
        | obj es =>
          cases es with
          | nil =>
            have hrows : ([] : List (DataValue × DataValue)) = rows := Except.ok.inj hro
            rw [← hrows, pyListGet_nil] at hp
            exact Except.noConfusion hp
          | cons a as => exact Except.noConfusion hro
        | arr xs =>
          have hlen := rows_of_arr_len hro
          have hra : rows_at d s.path = .ok rows := rows_at_of_get_data hdata hg
          have hbounds := hptr rows hra
          have hne : rows ≠ [] := by
            intro h0
            rw [h0, pyListGet_nil] at hp
            exact Except.noConfusion hp
          have hpos : 0 < rows.length := List.length_pos.mpr hne
          obtain ⟨hge, hlt⟩ := hbounds.2 hpos
          have htn : s.pointer.toNat < rows.length := by omega
          have hpeq := pyListGet_eq_get rows s.pointer hge htn
          rw [hpeq] at hp
          have hkv : kv = rows.get ⟨s.pointer.toNat, htn⟩ := (Except.ok.inj hp).symm
          have htn2 : s.pointer.toNat < xs.length := by omega
          have hget : rows.get ⟨s.pointer.toNat, htn⟩ =
              (DataValue.make (.json (.num (s.pointer.toNat : Int))),
               DataValue.make (.json (xs[s.pointer.toNat]))) := by
            rw [List.get_eq_getElem]
            exact rows_of_arr_getElem hro s.pointer.toNat htn2 htn
          have hkv2 : kv = (DataValue.make (.json (.num s.pointer)),
                            DataValue.make (.json (xs[s.pointer.toNat]))) := by
            rw [hkv, hget, Int.toNat_of_nonneg hge]
          have hlt2 : s.pointer < (xs.length : Int) := by
            rw [← hlen]
            exact hlt
          split at hok
          · rename_i es2 hv2
            have hs2 :
                s2 = { s with path := s.path ++ [(.json (.num s.pointer), s.pointer)], pointer := 0 } := by
              rw [← (Except.ok.inj hok), hkv2]
              rfl
            subst hs2
            exact inv_push hdata hc hptr hpath hge hlt2
          · rename_i xs2 hv2
            have hs2 :
                s2 = { s with path := s.path ++ [(.json (.num s.pointer), s.pointer)], pointer := 0 } := by
              rw [← (Except.ok.inj hok), hkv2]
              rfl
            subst hs2
            exact inv_push hdata hc hptr hpath hge hlt2
          · have hs2 : s = s2 := Except.ok.inj hok
            subst hs2
            exact ⟨hdata, hres, hptr, hpath⟩
        | str s3 =>
          have hkv := kv_of_singleton (Except.ok.inj hro).symm hp
          exact absurd (by rw [hkv]; rfl) hleaf
        | num n3 =>
          have hkv := kv_of_singleton (Except.ok.inj hro).symm hp
          exact absurd (by rw [hkv]; rfl) hleaf
        | bool b3 =>
          have hkv := kv_of_singleton (Except.ok.inj hro).symm hp
          exact absurd (by rw [hkv]; rfl) hleaf
        | null =>
          have hkv := kv_of_singleton (Except.ok.inj hro).symm hp
          exact absurd (by rw [hkv]; rfl) hleaf

lemma inv_init (d : JValue) : SessionInv d ⟨d, [], 0⟩ := by
  refine ⟨rfl, ⟨d, rfl⟩, goodPtr_zero d [], pathGood_nil d⟩

/-- Every reachable session state satisfies the combined invariant. -/
theorem reachable_sessionInv {d : JValue} {s : DataManager} (h : Reachable d s) :
    SessionInv d s := by
  induction h with
  | init => exact inv_init d
  | up _ ih => exact inv_move_up ih
  | down _ hok ih => exact inv_move_down ih hok
  | inc _ hok ih => exact inv_inc ih hok
  | dec _ hok ih => exact inv_dec ih hok

/-- C4: every session state reachable from the initial state (document, empty
path, cursor 0) via the four operations `move_up`, `move_down`,
`increment_pointer` and `decrement_pointer` satisfies `0 <= cursor < rowCount`
whenever `rowCount > 0`, and `cursor == 0` whenever `rowCount == 0` (stated for
every state whose row computation succeeds). -/
theorem reachable_pointer_in_bounds (d : JValue) (s : DataManager) (h : Reachable d s)
    (rows : List (DataValue × DataValue)) (hr : s.get_data = .ok rows) :
    (0 < rows.length → 0 ≤ s.pointer ∧ s.pointer < (rows.length : Int)) ∧
    (rows.length = 0 → s.pointer = 0) := by
  obtain ⟨hdata, _, hptr, _⟩ := reachable_sessionInv h
  have := hptr rows (rows_at_of_get_data hdata hr)
  exact ⟨this.2, this.1⟩

/-- Witness for the C4 theorem at the leaf document `null` and its initial
state: one row, cursor 0. -/
theorem reachable_pointer_in_bounds_w :
    (0 < 1 → (0 : Int) ≤ 0 ∧ (0 : Int) < ((1 : Nat) : Int)) ∧ ((1 : Nat) = 0 → (0 : Int) = 0) :=
  reachable_pointer_in_bounds JValue.null ⟨JValue.null, [], 0⟩ Reachable.init
    [(DataValue.make .leafMark, DataValue.make (.json .null))] rfl

/-- C5: in every reachable session state, resolving the path's selectors in
order against the immutable document succeeds, so the fatal exit branch of
`_resolve_path` (the `sys.exit(1)` modelled by `.error`) is unreachable. -/
theorem reachable_path_resolves (d : JValue) (s : DataManager) (h : Reachable d s) :
    (∃ v, _resolve_path s.data s.path = .ok v) ∧
    ∀ e : PyErr, _resolve_path s.data s.path ≠ .error e := by
  obtain ⟨hdata, hres, _, _⟩ := reachable_sessionInv h
  obtain ⟨v, hv⟩ := hres
  have hv2 : _resolve_path s.data s.path = .ok v := by rw [hdata]; exact hv
  refine ⟨⟨v, hv2⟩, ?_⟩
  intro e he
  rw [hv2] at he
  exact Except.noConfusion he

/-- Witness for the C5 theorem at the initial state of the document `null`. -/
theorem reachable_path_resolves_w :
    (∃ v, _resolve_path JValue.null [] = .ok v) ∧
    ∀ e : PyErr, _resolve_path JValue.null [] ≠ .error e :=
  reachable_path_resolves JValue.null ⟨JValue.null, [], 0⟩ Reachable.init

/-- C1: contrary to the claim, on a reachable state whose current node is an
empty object or empty array (`rowCount == 0`) none of the three operations is
a silent no-op: `increment_pointer` and `decrement_pointer` raise
`ZeroDivisionError` (`(pointer ± 1) % 0`) and `move_down` raises `IndexError`
(`list(self.get_data())[0]` on an empty row list).  The initial states of the
documents `{}` and `[]` exhibit all three failures. -/
theorem empty_node_ops_raise :
    Reachable (.obj []) ⟨.obj [], [], 0⟩ ∧
    DataManager.increment_pointer ⟨.obj [], [], 0⟩ = .error .zeroDivisionError ∧
    DataManager.decrement_pointer ⟨.obj [], [], 0⟩ = .error .zeroDivisionError ∧
    DataManager.move_down ⟨.obj [], [], 0⟩ = .error .indexError ∧
    DataManager.increment_pointer ⟨.arr [], [], 0⟩ = .error .zeroDivisionError ∧
    DataManager.decrement_pointer ⟨.arr [], [], 0⟩ = .error .zeroDivisionError ∧
    DataManager.move_down ⟨.arr [], [], 0⟩ = .error .indexError :=
  ⟨Reachable.init, rfl, rfl, rfl, rfl, rfl, rfl⟩

/-- C2: contrary to the claim, `get_data` on a non-empty object node does not
return sorted rows: the `@dataclass` declaration of `DataValue` (default
`eq=True`, no `frozen`/`unsafe_hash`) sets `__hash__` to `None`, so the dict
comprehension `{DataValue(key): DataValue(value) ...}` raises
`TypeError: unhashable type` before any sorting.  On the claim's own example
document no row list is produced at all. -/
theorem get_data_nonempty_dict_raises :
    Reachable (.obj [("b", .num 1), ("a", .arr [.num 1, .num 2]), ("c", .obj [("x", .num 1)])])
      ⟨.obj [("b", .num 1), ("a", .arr [.num 1, .num 2]), ("c", .obj [("x", .num 1)])], [], 0⟩ ∧
    DataManager.get_data
      ⟨.obj [("b", .num 1), ("a", .arr [.num 1, .num 2]), ("c", .obj [("x", .num 1)])], [], 0⟩ =
      .error .typeError :=
  ⟨Reachable.init, rfl⟩

/-- C7: `stringify_value` wraps a string in double quotes with no further
escaping; maps an object with N keys to "Dictionary, 1 key" when N = 1 and
"Dictionary, N keys" otherwise (so the empty object gives
"Dictionary, 0 keys"); maps an array with N entries to "List, 1 entry" when
N = 1 and "List, N entries" otherwise; and maps a number, boolean or null to
its natural textual representation. -/
theorem stringify_value_spec :
    (∀ s : String, DataValue.stringify_value (.json (.str s)) = "\"" ++ s ++ "\"") ∧
    (∀ es : List (String × JValue), DataValue.stringify_value (.json (.obj es)) =
      if es.length = 1 then "Dictionary, 1 key"
      else "Dictionary, " ++ toString es.length ++ " keys") ∧
    DataValue.stringify_value (.json (.obj [])) = "Dictionary, 0 keys" ∧
    (∀ xs : List JValue, DataValue.stringify_value (.json (.arr xs)) =
      if xs.length = 1 then "List, 1 entry"
      else "List, " ++ toString xs.length ++ " entries") ∧
    (∀ n : Int, DataValue.stringify_value (.json (.num n)) = toString n) ∧
    (∀ b : Bool, DataValue.stringify_value (.json (.bool b)) = if b then "True" else "False") ∧
    DataValue.stringify_value (.json .null) = "None" := by
  refine ⟨fun s => rfl, fun es => ?_, rfl, fun xs => ?_, fun n => rfl, fun b => rfl, rfl⟩
  · by_cases h : es.length = 1 <;> simp [DataValue.stringify_value, h]
  · by_cases h : xs.length = 1 <;> simp [DataValue.stringify_value, h]

/-- C9: the JSON literals true, false and null (Python `True`, `False`,
`None`) render as the Python `str` outputs "True", "False" and "None" — not
as the JSON source literals — and this rendering is shared by row values
(`get_data`) and breadcrumb selectors (`path_str`). -/
theorem python_literal_rendering :
    DataValue.stringify_value (.json (.bool true)) = "True" ∧
    DataValue.stringify_value (.json (.bool false)) = "False" ∧
    DataValue.stringify_value (.json .null) = "None" ∧
    DataManager.get_data ⟨.bool true, [], 0⟩ =
      .ok [(DataValue.make .leafMark, DataValue.make (.json (.bool true)))] ∧
    (DataValue.make (.json (.bool true))).as_string = "True" ∧
    (DataValue.make (.json .null)).as_string = "None" ∧
    DataManager.path_str ⟨.null, [(.json (.bool true), 0), (.json .null, 0)], 0⟩ =
      "root/True/None" :=
  ⟨rfl, rfl, rfl, rfl, rfl, rfl, rfl⟩

/-- C10: `_resolve_path` checks an array selector only with
`isinstance(entry, int)` and `entry < len(list)`; a negative selector with
`-len <= entry <= -1` passes the guard and Python's end-relative indexing
returns `list[entry]` instead of reaching the exit branch. -/
theorem resolve_negative_index (xs : List JValue) (e c : Int) (hne : xs ≠ [])
    (h1 : -(xs.length : Int) ≤ e) (h2 : e ≤ -1) :
    _resolve_path (.arr xs) [(.json (.num e), c)] =
      .ok (xs.getD (e + (xs.length : Int)).toNat JValue.null) := by
  have hlen : (0 : Int) < (xs.length : Int) := by
    exact_mod_cast List.length_pos.mpr hne
  have hjn : (0 : Int) ≤ e + (xs.length : Int) := by omega
  have hjlt : (e + (xs.length : Int)).toNat < xs.length := by omega
  show resolve_loop (.arr xs) [.json (.num e)] = _
  simp only [resolve_loop, resolve_step]
  rw [if_pos (by omega : e < (xs.length : Int))]
  have hpy : pyListGet xs e = .ok (xs.get ⟨(e + (xs.length : Int)).toNat, hjlt⟩) := by
    simp only [pyListGet]
    rw [if_pos (by omega : e < 0), if_pos hjn, List.get?_eq_get hjlt]
  rw [hpy]
  show Except.ok (xs.get ⟨(e + (xs.length : Int)).toNat, hjlt⟩) =
    Except.ok (xs.getD (e + (xs.length : Int)).toNat JValue.null)
  rw [List.get_eq_getElem, List.getD_eq_getElem]

/-- Witness for the C10 theorem: `data[-1]` on the two-element list `[7, 8]`
returns the last element `8`. -/
theorem resolve_negative_index_w :
    _resolve_path (.arr [.num 7, .num 8]) [(.json (.num (-1)), 0)] = .ok (JValue.num 8) :=
  resolve_negative_index [.num 7, .num 8] (-1) 0 (by simp) (by decide) (by decide)

/-- C8: the breadcrumb of `update_screen` is `"root"` joined with `"/"` to the
stringified raw selector of each path entry, in path order; a string selector
appears wrapped in double quotes and an integer index appears as a bare
number. -/
theorem breadcrumb_spec (dm : DataManager) :
    dm.path_str =
      "root" ++ dm.path.foldr (fun e acc => "/" ++ DataValue.stringify_value e.1 ++ acc) "" ∧
    (∀ s : String, DataValue.stringify_value (.json (.str s)) = "\"" ++ s ++ "\"") ∧
    (∀ n : Int, DataValue.stringify_value (.json (.num n)) = toString n) := by
  refine ⟨?_, fun s => rfl, fun n => rfl⟩
  unfold DataManager.path_str DataManager.get_path
  rw [List.map_map]
  have hjoin : ∀ (a : String) (l : List String),
      join_with_slash (a :: l) = a ++ l.foldr (fun x acc => "/" ++ x ++ acc) "" := by
    intro a l
    induction l generalizing a with
    | nil => simp [join_with_slash]
    | cons b l2 ih =>
      rw [join_with_slash, ih b]
      simp [String.append_assoc]
  rw [hjoin, List.foldr_map]
  rfl

/-- C3 counterexample: on the document `[[5]]`, from the reachable state with
path `[(0, 0)]` (current node `[5]`), `move_down` selects the scalar `5` and
is a no-op, and the following `move_up` pops the existing path entry, so the
descend/ascend pair does not restore the prior (path, cursor) pair. -/
theorem descend_ascend_not_round_trip :
    ¬ (∀ s s2 : DataManager, Reachable (.arr [.arr [.num 5]]) s →
        s.move_down = .ok s2 →
        s2.move_up.path = s.path ∧ s2.move_up.pointer = s.pointer) := by
  intro h
  have hreach : Reachable (.arr [.arr [.num 5]])
      ⟨.arr [.arr [.num 5]], [(.json (.num 0), 0)], 0⟩ :=
    Reachable.down Reachable.init rfl
  have hpair := h ⟨.arr [.arr [.num 5]], [(.json (.num 0), 0)], 0⟩
    ⟨.arr [.arr [.num 5]], [(.json (.num 0), 0)], 0⟩ hreach rfl
  have hlen : (0 : Nat) = 1 := congrArg List.length hpair.1
  exact absurd hlen (by decide)

/-- C3 (amended): whenever `move_down` succeeds and actually descends (its
result has one more path entry than its argument), the immediately following
`move_up` restores exactly the prior (path, cursor) pair (and the document). -/
theorem descend_ascend_round_trip_when_pushed (s s2 : DataManager)
    (h : s.move_down = .ok s2) (hpush : s2.path.length = s.path.length + 1) :
    s2.move_up.path = s.path ∧ s2.move_up.pointer = s.pointer ∧ s2.move_up.data = s.data := by
  unfold DataManager.move_down at h
  split at h
  · exact Except.noConfusion h
  · rename_i rows hg
    split at h
    · exact Except.noConfusion h
    · rename_i kv hp
      by_cases hleaf : kv.1.content.isLeafMark
      · rw [if_pos hleaf] at h
        have hs2 : s = s2 := Except.ok.inj h
        subst hs2
        exact absurd hpush (by omega)
      · rw [if_neg hleaf] at h
        split at h
        · rename_i es2 hv2
          have hs2 : { s with path := s.path ++ [(kv.1.content, s.pointer)], pointer := 0 } = s2 :=
            Except.ok.inj h
          subst hs2
          rw [move_up_concat (q := s.path) (e := (kv.1.content, s.pointer)) rfl]
          exact ⟨rfl, rfl, rfl⟩
        · rename_i xs2 hv2
          have hs2 : { s with path := s.path ++ [(kv.1.content, s.pointer)], pointer := 0 } = s2 :=
            Except.ok.inj h
          subst hs2
          rw [move_up_concat (q := s.path) (e := (kv.1.content, s.pointer)) rfl]
          exact ⟨rfl, rfl, rfl⟩
        · have hs2 : s = s2 := Except.ok.inj h
          subst hs2
          exact absurd hpush (by omega)

/-- Witness for the amended C3 theorem: descending from the root of `[[]]`
pushes the entry `(0, 0)` and ascending restores path `[]`, cursor `0`. -/
theorem descend_ascend_round_trip_when_pushed_w :
    (DataManager.move_up ⟨.arr [.arr []], [(.json (.num 0), 0)], 0⟩).path = ([] : List (PyVal × Int)) ∧
    (DataManager.move_up ⟨.arr [.arr []], [(.json (.num 0), 0)], 0⟩).pointer = 0 ∧
    (DataManager.move_up ⟨.arr [.arr []], [(.json (.num 0), 0)], 0⟩).data = JValue.arr [.arr []] :=
  descend_ascend_round_trip_when_pushed ⟨.arr [.arr []], [], 0⟩
    ⟨.arr [.arr []], [(.json (.num 0), 0)], 0⟩ rfl rfl

lemma increment_pointer_ok {s : DataManager} {rows : List (DataValue × DataValue)}
    (hr : s.get_data = .ok rows) (hpos : 0 < rows.length) :
    s.increment_pointer = .ok { s with pointer := (s.pointer + 1) % (rows.length : Int) } := by
  have hk : s.get_keys = .ok (rows.map Prod.fst) := by
    unfold DataManager.get_keys
    rw [hr]
  simp only [DataManager.increment_pointer, hk, List.length_map]
  rw [if_neg (by omega : ¬ rows.length = 0)]

lemma decrement_pointer_ok {s : DataManager} {rows : List (DataValue × DataValue)}
    (hr : s.get_data = .ok rows) (hpos : 0 < rows.length) :
    s.decrement_pointer = .ok { s with pointer := (s.pointer - 1) % (rows.length : Int) } := by
  have hk : s.get_keys = .ok (rows.map Prod.fst) := by
    unfold DataManager.get_keys
    rw [hr]
  simp only [DataManager.decrement_pointer, hk, List.length_map]
  rw [if_neg (by omega : ¬ rows.length = 0)]

lemma apply_n_inc_eq (k : Nat) :
    ∀ (s : DataManager) (rows : List (DataValue × DataValue)),
      s.get_data = .ok rows → 0 < rows.length → 0 ≤ s.pointer →
      s.pointer < (rows.length : Int) →
      apply_n DataManager.increment_pointer k s =
        .ok { s with pointer := (s.pointer + (k : Int)) % (rows.length : Int) } := by
  induction k with
  | zero =>
    intro s rows hr hpos hge hlt
    have h0 : (s.pointer + ((0 : Nat) : Int)) % (rows.length : Int) = s.pointer := by
      simpa using Int.emod_eq_of_lt hge hlt
    simp only [apply_n]
    rw [h0]
  | succ k ih =>
    intro s rows hr hpos hge hlt
    have hstep := increment_pointer_ok hr hpos
    simp only [apply_n]
    rw [hstep]
    have h1 : (({ s with pointer := (s.pointer + 1) % (rows.length : Int) } : DataManager)).get_data
        = .ok rows := hr
    have hge1 : 0 ≤ (s.pointer + 1) % (rows.length : Int) :=
      Int.emod_nonneg _ (by omega : (rows.length : Int) ≠ 0)
    have hlt1 : (s.pointer + 1) % (rows.length : Int) < (rows.length : Int) :=
      Int.emod_lt_of_pos _ (by omega : (0 : Int) < (rows.length : Int))
    show apply_n DataManager.increment_pointer k
        { s with pointer := (s.pointer + 1) % (rows.length : Int) } =
      .ok { s with pointer := (s.pointer + ((k + 1 : Nat) : Int)) % (rows.length : Int) }
    rw [ih _ rows h1 hpos hge1 hlt1]
    have harith : ((s.pointer + 1) % (rows.length : Int) + (k : Int)) % (rows.length : Int) =
        (s.pointer + ((k + 1 : Nat) : Int)) % (rows.length : Int) := by
      rw [Int.emod_add_emod]
      congr 1
      push_cast
      ring
    rw [harith]

lemma apply_n_dec_eq (k : Nat) :
    ∀ (s : DataManager) (rows : List (DataValue × DataValue)),
      s.get_data = .ok rows → 0 < rows.length → 0 ≤ s.pointer →
      s.pointer < (rows.length : Int) →
      apply_n DataManager.decrement_pointer k s =
        .ok { s with pointer := (s.pointer - (k : Int)) % (rows.length : Int) } := by
  induction k with
  | zero =>
    intro s rows hr hpos hge hlt
    have h0 : (s.pointer - ((0 : Nat) : Int)) % (rows.length : Int) = s.pointer := by
      simpa using Int.emod_eq_of_lt hge hlt
    simp only [apply_n]
    rw [h0]
  | succ k ih =>
    intro s rows hr hpos hge hlt
    have hstep := decrement_pointer_ok hr hpos
    simp only [apply_n]
    rw [hstep]
    have h1 : (({ s with pointer := (s.pointer - 1) % (rows.length : Int) } : DataManager)).get_data
        = .ok rows := hr
    have hge1 : 0 ≤ (s.pointer - 1) % (rows.length : Int) :=
      Int.emod_nonneg _ (by omega : (rows.length : Int) ≠ 0)
    have hlt1 : (s.pointer - 1) % (rows.length : Int) < (rows.length : Int) :=
      Int.emod_lt_of_pos _ (by omega : (0 : Int) < (rows.length : Int))
    show apply_n DataManager.decrement_pointer k
        { s with pointer := (s.pointer - 1) % (rows.length : Int) } =
      .ok { s with pointer := (s.pointer - ((k + 1 : Nat) : Int)) % (rows.length : Int) }
    rw [ih _ rows h1 hpos hge1 hlt1]
    have harith : ((s.pointer - 1) % (rows.length : Int) - (k : Int)) % (rows.length : Int) =
        (s.pointer - ((k + 1 : Nat) : Int)) % (rows.length : Int) := by
      rw [Int.sub_emod ((s.pointer - 1) % (rows.length : Int)) (k : Int),
        Int.emod_emod_of_dvd (s.pointer - 1) dvd_rfl, ← Int.sub_emod]
      congr 1
      push_cast
      ring
    rw [harith]

/-- C6: for a node with N rows (N > 0, pointer in bounds), N
`increment_pointer` steps return the cursor to its starting value, and
likewise N `decrement_pointer` steps; each single step sets the cursor to
`(cursor ± 1) mod N`, which is non-negative and below N (so the last row wraps
to the first and the first to the last). -/
theorem pointer_wraparound (s : DataManager) (rows : List (DataValue × DataValue)) (N : Nat)
    (hr : s.get_data = .ok rows) (hN : rows.length = N)
    (h0 : 0 ≤ s.pointer) (h1 : s.pointer < (N : Int)) :
    apply_n DataManager.increment_pointer N s = .ok s ∧
    apply_n DataManager.decrement_pointer N s = .ok s ∧
    DataManager.increment_pointer s = .ok { s with pointer := (s.pointer + 1) % (N : Int) } ∧
    DataManager.decrement_pointer s = .ok { s with pointer := (s.pointer - 1) % (N : Int) } ∧
    0 ≤ (s.pointer + 1) % (N : Int) ∧ (s.pointer + 1) % (N : Int) < (N : Int) ∧
    0 ≤ (s.pointer - 1) % (N : Int) ∧ (s.pointer - 1) % (N : Int) < (N : Int) := by
  subst hN
  have hpos : 0 < rows.length := by omega
  have hNne : (rows.length : Int) ≠ 0 := by omega
  have hNpos : (0 : Int) < (rows.length : Int) := by omega
  refine ⟨?_, ?_, increment_pointer_ok hr hpos, decrement_pointer_ok hr hpos,
    Int.emod_nonneg _ hNne, Int.emod_lt_of_pos _ hNpos,
    Int.emod_nonneg _ hNne, Int.emod_lt_of_pos _ hNpos⟩
  · rw [apply_n_inc_eq rows.length s rows hr hpos h0 h1]
    have h2 : (s.pointer + (rows.length : Int)) % (rows.length : Int)
        = s.pointer % (rows.length : Int) := by
      simp [Int.add_mul_emod_self_left]
    rw [h2, Int.emod_eq_of_lt h0 h1]
  · rw [apply_n_dec_eq rows.length s rows hr hpos h0 h1]
    have h2 : (s.pointer - (rows.length : Int)) % (rows.length : Int)
        = s.pointer % (rows.length : Int) := by
      rw [Int.sub_emod, Int.emod_self, sub_zero, Int.emod_emod_of_dvd s.pointer dvd_rfl]
    rw [h2, Int.emod_eq_of_lt h0 h1]

/-- Witness for the C6 theorem on the two-element list `[10, 20]` from its
initial state: two increments (and two decrements) return to the start. -/
theorem pointer_wraparound_w :
    apply_n DataManager.increment_pointer 2 ⟨.arr [.num 10, .num 20], [], 0⟩ =
      .ok ⟨.arr [.num 10, .num 20], [], 0⟩ ∧
    apply_n DataManager.decrement_pointer 2 ⟨.arr [.num 10, .num 20], [], 0⟩ =
      .ok ⟨.arr [.num 10, .num 20], [], 0⟩ :=
  ⟨(pointer_wraparound ⟨.arr [.num 10, .num 20], [], 0⟩
      [(DataValue.make (.json (.num 0)), DataValue.make (.json (.num 10))),
       (DataValue.make (.json (.num 1)), DataValue.make (.json (.num 20)))] 2
      rfl rfl (by decide) (by decide)).1,
   (pointer_wraparound ⟨.arr [.num 10, .num 20], [], 0⟩
      [(DataValue.make (.json (.num 0)), DataValue.make (.json (.num 10))),
       (DataValue.make (.json (.num 1)), DataValue.make (.json (.num 20)))] 2
      rfl rfl (by decide) (by decide)).2.1⟩
